import Mathlib

/-!
Verification of the Message / MessageMap core of the ebusd library
(src/lib/ebus/message.h).  The repository ships only the interface header;
every operation body (key derivation, add, the two find operations, clear,
prepareMaster, decode) is therefore modelled from the specification, staying
faithful to its words, while the data model (the fields of Message and
MessageMap, the constructor initial values at message.h:184) comes from the
header itself.
-/

namespace Ebusd

/-- The eBUS SYN symbol 0xAA, used by message.h as the wildcard source
address ("the source address, or SYN for any"). -/
def SYN : Nat := 0xAA

/-- Error kinds of the core, from the spec section 7 (result.h is not under
src/): MalformedDefinition, DuplicateKey, NotFound, FieldFormatError,
IncompleteData. -/
inductive Errorkind where
  | malformedDefinition
  | duplicateKey
  | notFound
  | fieldFormatError
  | incompleteData
deriving DecidableEq

/-- Result of a fallible operation: models the C++ result_t return value
together with the out-parameter written on success. -/
inductive Res (α : Type) where
  | ok : α → Res α
  | error : Errorkind → Res α
deriving DecidableEq

/-- Which part of a frame a data field belongs to: the PartType tag taken by
Message::decode (message.h:143; the PartType declaration itself lives in the
external data.h collaborator). -/
inductive PartType where
  | masterData
  | slaveData
deriving DecidableEq

/-- Modelled from the spec: one value descriptor of the external DataField
collaborator (data.h, not under src/), reduced to its codec interface: a
fixed byte length, an allowed numeric range, and an optional reserved
replacement pattern meaning "no value". -/
structure FieldDef where
  part : PartType
  length : Nat
  minValue : Nat
  maxValue : Nat
  replacement : Option Nat
deriving DecidableEq

/-- The value-descriptor tree of a Message: its fields in wire order. -/
abbrev DataField := List FieldDef

/-- One message definition: the fields of class Message (message.h:148-170).
The text stream of field values is modelled by the numeric values themselves;
field-level text formatting belongs to the external value-descriptor
collaborator. -/
structure Message where
  clazz : String
  name : String
  isSet : Bool
  isPassive : Bool
  comment : String
  srcAddress : Nat
  dstAddress : Nat
  id : List Nat
  data : DataField
  pollPriority : Nat
deriving DecidableEq

/-- Pack the id bytes into one number, first id byte most significant. -/
def packId (id : List Nat) : Nat :=
  id.foldl (fun acc b => acc * 256 + b % 256) 0

/-- Modelled from the spec: the 64-bit key derivation of the Message
constructor (message.h:117-120 and 165-166 declare getKey and m_key; the
computing constructor body is not under src/).  Per spec section 4.1 and the
section 9 design note, dstAddress is packed as the most significant byte,
the id bytes follow in order (left-aligned below it), and the count of id
bytes is packed into the low-order byte so that ids of different lengths
sharing a common prefix cannot collide.  With at most 6 id bytes,
1 + 6 + 1 = 8 bytes fill the 64-bit key. -/
def getKey (dstAddress : Nat) (id : List Nat) : Nat :=
  ((dstAddress % 256) * 2 ^ 56
    + packId id * 2 ^ (8 * (7 - id.length))
    + id.length % 256) % 2 ^ 64

/-- The derived wire key of a Message (m_key, message.h:166): computed from
dstAddress and id alone. -/
def Message.key (m : Message) : Nat :=
  getKey m.dstAddress m.id

/-- Modelled from the spec: whether a Message has a meaningful id and hence a
resolvable (dstAddress, id) pair; pure "virtual" definitions without id
bytes are excluded from the key map (spec section 4.2 indexing rule). -/
def Message.hasWireId (m : Message) : Bool :=
  !m.id.isEmpty

/-- Association-list lookup, modelling std::map::find. -/
def alookup {α β : Type} [DecidableEq α] (k : α) : List (α × β) → Option β
  | [] => none
  | (k', v) :: rest => if k' = k then some v else alookup k rest

/-- The name-map key: class, name and the set flag (the human identity). -/
abbrev NameKey := String × String × Bool

/-- The registry (class MessageMap, message.h:177-234): the name-indexed map,
the key-indexed map of wire-matchable messages, and the minimum/maximum id
length of the known messages. -/
structure MessageMap where
  messagesByName : List (NameKey × Message)
  passiveMessagesByKey : List (Nat × Message)
  minIdLength : Nat
  maxIdLength : Nat
deriving DecidableEq

/-- A freshly constructed MessageMap: message.h:184 initializes
m_minIdLength to 4 and m_maxIdLength to 0. -/
def MessageMap.empty : MessageMap :=
  { messagesByName := []
    passiveMessagesByKey := []
    minIdLength := 4
    maxIdLength := 0 }

/-- Modelled from the spec: MessageMap::add (declared message.h:190-195, body
not under src/).  Fails with duplicateKey when an entry with the same
(class, name, isSet) or, for messages with a wire id, the same derived key
already exists, leaving the registry unchanged; on success indexes the
message by name, and by key when it has a wire id, updating the id length
bounds. -/
def MessageMap.add (mp : MessageMap) (msg : Message) : Option Errorkind × MessageMap :=
  if (alookup (msg.clazz, msg.name, msg.isSet) mp.messagesByName).isSome then
    (some .duplicateKey, mp)
  else if msg.hasWireId && (alookup msg.key mp.passiveMessagesByKey).isSome then
    (some .duplicateKey, mp)
  else
    (none,
      { messagesByName := ((msg.clazz, msg.name, msg.isSet), msg) :: mp.messagesByName
        passiveMessagesByKey :=
          if msg.hasWireId then (msg.key, msg) :: mp.passiveMessagesByKey
          else mp.passiveMessagesByKey
        minIdLength :=
          if msg.hasWireId then min mp.minIdLength msg.id.length else mp.minIdLength
        maxIdLength :=
          if msg.hasWireId then max mp.maxIdLength msg.id.length else mp.maxIdLength })

/-- Modelled from the spec: MessageMap::find by class, name and set flag
(declared message.h:199-206, body not under src/).  Exact lookup by the human
identity comes first; with an empty queried class it falls back to an entry
of any class with the same name and set flag; with a nonempty queried class
it falls back to the ungrouped (empty-class) entry, so ungrouped definitions
act as defaults across classes and a class-qualified entry takes precedence
over the unqualified one. -/
def MessageMap.findByName (mp : MessageMap) (clazz name : String) (isSet : Bool) :
    Option Message :=
  match alookup (clazz, name, isSet) mp.messagesByName with
  | some msg => some msg
  | none =>
    if clazz = "" then
      (mp.messagesByName.find?
        (fun e => decide (e.1.2.1 = name) && decide (e.1.2.2 = isSet))).map (fun e => e.2)
    else
      alookup ("", name, isSet) mp.messagesByName

/-- Modelled from the spec: the source-address gate of MessageMap::find by
master data.  A candidate is accepted unless the observed source address is
not the wildcard while the candidate is passive with a specific
(non-wildcard) source address different from the observed one. -/
def sourceMatches (src : Nat) (msg : Message) : Bool :=
  !(decide (src ≠ SYN) && msg.isPassive
    && decide (msg.srcAddress ≠ SYN) && decide (msg.srcAddress ≠ src))

/-- Modelled from the spec: one probe of MessageMap::find by master data at a
candidate id length: derive the key of the leading idBytes at that length
with the construction-time derivation, look it up in the key map, and apply
the source-address gate. -/
def MessageMap.tryLength (mp : MessageMap) (src dst : Nat) (idBytes : List Nat)
    (len : Nat) : Option Message :=
  if len ≤ idBytes.length then
    match alookup (getKey dst (idBytes.take len)) mp.passiveMessagesByKey with
    | some msg => if sourceMatches src msg then some msg else none
    | none => none
  else none

/-- Modelled from the spec: MessageMap::find by master data (declared
message.h:207-213, body not under src/).  The observed frame header supplies
the source address, the destination address and the leading bytes; candidate
id lengths are tried from minIdLength up to maxIdLength, shortest first, and
the first accepted candidate is returned. -/
def MessageMap.findByMaster (mp : MessageMap) (master : List Nat) : Option Message :=
  match master with
  | src :: dst :: idBytes =>
    (List.range' mp.minIdLength (mp.maxIdLength + 1 - mp.minIdLength)).findSome?
      (mp.tryLength src dst idBytes)
  | _ => none

/-- Modelled from the spec: MessageMap::clear (declared message.h:214-217,
body not under src/): empties both maps and resets the id length bounds to
their initial values. -/
def MessageMap.clear (_mp : MessageMap) : MessageMap :=
  MessageMap.empty

/-- Encode a value into a fixed number of bytes, most significant first. -/
def encodeBytes : Nat → Nat → List Nat
  | 0, _ => []
  | n + 1, v => encodeBytes n (v / 256) ++ [v % 256]

/-- Decode a byte sequence back into a value, most significant byte first. -/
def decodeBytes (bs : List Nat) : Nat :=
  bs.foldl (fun acc b => acc * 256 + b % 256) 0

/-- Modelled from the spec: field-level encoding by the external
value-descriptor collaborator (data.h, not under src/): a value outside the
field's allowed range, too wide for the field, or equal to the reserved
replacement ("no value") pattern fails with fieldFormatError; otherwise the
value is written as the field's bytes. -/
def encodeField (f : FieldDef) (v : Nat) : Res (List Nat) :=
  if v < f.minValue ∨ f.maxValue < v ∨ 2 ^ (8 * f.length) ≤ v then
    .error .fieldFormatError
  else if f.replacement = some v then
    .error .fieldFormatError
  else
    .ok (encodeBytes f.length v)

/-- Modelled from the spec: encode the input values against the fields in
order, concatenating the produced bytes; a value count mismatch is a field
format error. -/
def encodeFields : List FieldDef → List Nat → Res (List Nat)
  | [], [] => .ok []
  | [], _ :: _ => .error .fieldFormatError
  | _ :: _, [] => .error .fieldFormatError
  | f :: fs, v :: vs =>
    match encodeField f v, encodeFields fs vs with
    | .ok b, .ok bs => .ok (b ++ bs)
    | .error e, _ => .error e
    | .ok _, .error e => .error e

/-- The fields of the value-descriptor tree belonging to one frame part. -/
def partFields (pt : PartType) (df : DataField) : List FieldDef :=
  df.filter (fun f => decide (f.part = pt))

/-- The minimum byte length a list of fields requires. -/
def minLength (fields : List FieldDef) : Nat :=
  (fields.map (fun f => f.length)).sum

/-- Modelled from the spec: field-level decoding by the external
value-descriptor collaborator: fewer bytes than the field needs is
incompleteData; the reserved replacement pattern decodes to the empty
placeholder (none); a structurally present but out-of-range pattern is a
fieldFormatError; a legal pattern decodes to its value. -/
def decodeField (f : FieldDef) (data : List Nat) : Res (Option Nat × List Nat) :=
  if data.length < f.length then .error .incompleteData
  else if f.replacement = some (decodeBytes (data.take f.length)) then
    .ok (none, data.drop f.length)
  else if decodeBytes (data.take f.length) < f.minValue
      ∨ f.maxValue < decodeBytes (data.take f.length) then
    .error .fieldFormatError
  else
    .ok (some (decodeBytes (data.take f.length)), data.drop f.length)

/-- Modelled from the spec: decode the fields in order, each consuming its
bytes from the front of the data. -/
def decodeFields : List FieldDef → List Nat → Res (List (Option Nat))
  | [], _ => .ok []
  | f :: fs, data =>
    match decodeField f data with
    | .error e => .error e
    | .ok (v, rest) =>
      match decodeFields fs rest with
      | .error e => .error e
      | .ok vs => .ok (v :: vs)

/-- Modelled from the spec: Message::prepareMaster (declared
message.h:133-134, body not under src/): encodes the input values with the
master-part fields of the value-descriptor tree and emits the wire sequence
of source address, destination address, the id bytes, a length byte and the
encoded payload (spec section 4.2). -/
def Message.prepareMaster (m : Message) (srcAddress : Nat) (input : List Nat) :
    Res (List Nat) :=
  match encodeFields (partFields .masterData m.data) input with
  | .error e => .error e
  | .ok payload =>
    .ok ((srcAddress % 256) :: (m.dstAddress % 256) ::
      (m.id.map (fun b => b % 256) ++ (payload.length % 256) :: payload))

/-- Modelled from the spec: Message::decode (declared message.h:143-144, body
not under src/): decodes the fields of the given frame part in order; data
shorter than the value-descriptor tree requires fails with incompleteData and
produces no partial output (spec section 4.2). -/
def Message.decode (m : Message) (pt : PartType) (data : List Nat) :
    Res (List (Option Nat)) :=
  if data.length < minLength (partFields pt m.data) then .error .incompleteData
  else decodeFields (partFields pt m.data) data

/-! Concrete messages used by the witnesses. -/

/-- An active get message with a 2-byte id (the section 8 example of the spec). -/
def exMsgA : Message :=
  { clazz := "hc", name := "temp", isSet := false, isPassive := false,
    comment := "", srcAddress := SYN, dstAddress := 0x15,
    id := [0xB5, 0x09], data := [], pollPriority := 0 }

/-- An active get message with a 4-byte id sharing its first two bytes with
exMsgA. -/
def exMsgB : Message :=
  { clazz := "hc", name := "temp4", isSet := false, isPassive := false,
    comment := "", srcAddress := SYN, dstAddress := 0x15,
    id := [0xB5, 0x09, 0x01, 0x02], data := [], pollPriority := 0 }

/-- An active get message with an unrelated 2-byte id. -/
def exMsgC : Message :=
  { clazz := "hc", name := "other", isSet := false, isPassive := false,
    comment := "", srcAddress := SYN, dstAddress := 0x15,
    id := [0xB5, 0x08], data := [], pollPriority := 0 }

/-- A passive message bound to the specific sender 0x10, sharing the 2-byte
prefix of exMsgB. -/
def exMsgPassive : Message :=
  { clazz := "hc", name := "obs", isSet := false, isPassive := true,
    comment := "", srcAddress := 0x10, dstAddress := 0x15,
    id := [0xB5, 0x09], data := [], pollPriority := 0 }

/-- A two-byte numeric master-data field with a reserved replacement. -/
def exFld : FieldDef :=
  { part := .masterData, length := 2, minValue := 0, maxValue := 60000,
    replacement := some 65535 }

/-- A set message carrying one encodable field. -/
def exMsgRt : Message :=
  { clazz := "", name := "rt", isSet := true, isPassive := false,
    comment := "", srcAddress := SYN, dstAddress := 0x15,
    id := [0xB5, 0x09], data := [exFld], pollPriority := 0 }

/-! Helper lemmas about the key derivation. -/

theorem packId_foldl_lt (id : List Nat) :
    ∀ acc : Nat, id.foldl (fun a b => a * 256 + b % 256) acc
      < (acc + 1) * 2 ^ (8 * id.length) := by
  induction id with
  | nil => intro acc; simp
  | cons b bs ih =>
    intro acc
    simp only [List.foldl_cons, List.length_cons]
    have h1 := ih (acc * 256 + b % 256)
    have h2 : acc * 256 + b % 256 + 1 ≤ (acc + 1) * 256 := by
      have hb : b % 256 < 256 := Nat.mod_lt _ (by norm_num)
      nlinarith
    have h3 : (acc * 256 + b % 256 + 1) * 2 ^ (8 * bs.length)
        ≤ ((acc + 1) * 256) * 2 ^ (8 * bs.length) :=
      Nat.mul_le_mul_right _ h2
    have h4 : ((acc + 1) * 256) * 2 ^ (8 * bs.length)
        = (acc + 1) * 2 ^ (8 * (bs.length + 1)) := by
      have he : 8 * (bs.length + 1) = 8 * bs.length + 8 := by ring
      rw [he, pow_add]
      norm_num
      ring
    calc bs.foldl (fun a b => a * 256 + b % 256) (acc * 256 + b % 256)
        < (acc * 256 + b % 256 + 1) * 2 ^ (8 * bs.length) := h1
      _ ≤ ((acc + 1) * 256) * 2 ^ (8 * bs.length) := h3
      _ = (acc + 1) * 2 ^ (8 * (bs.length + 1)) := h4

theorem packId_lt (id : List Nat) : packId id < 2 ^ (8 * id.length) := by
  have h := packId_foldl_lt id 0
  simpa [packId] using h

theorem getKey_eq_of_le (dst : Nat) (id : List Nat) (h : id.length ≤ 6) :
    getKey dst id
      = (dst % 256) * 2 ^ 56 + packId id * 2 ^ (8 * (7 - id.length)) + id.length := by
  unfold getKey
  have hlen : id.length % 256 = id.length := Nat.mod_eq_of_lt (by omega)
  rw [hlen]
  apply Nat.mod_eq_of_lt
  have hp := packId_lt id
  have hmul : packId id * 2 ^ (8 * (7 - id.length)) + 2 ^ (8 * (7 - id.length))
      ≤ 2 ^ 56 := by
    have hm : (packId id + 1) * 2 ^ (8 * (7 - id.length))
        ≤ 2 ^ (8 * id.length) * 2 ^ (8 * (7 - id.length)) :=
      Nat.mul_le_mul_right _ hp
    rw [← pow_add] at hm
    have he : 8 * id.length + 8 * (7 - id.length) = 56 := by omega
    rw [he] at hm
    rw [add_mul, one_mul] at hm
    exact hm
  have hS : (256 : Nat) ≤ 2 ^ (8 * (7 - id.length)) := by
    have hm : (2 : Nat) ^ 8 ≤ 2 ^ (8 * (7 - id.length)) :=
      Nat.pow_le_pow_right (by norm_num) (by omega)
    simpa using hm
  have hAm : (dst % 256) * 2 ^ 56 ≤ 255 * 2 ^ 56 :=
    Nat.mul_le_mul_right _ (by omega)
  have e56 : (2 : Nat) ^ 56 = 72057594037927936 := by norm_num
  have e64 : (2 : Nat) ^ 64 = 18446744073709551616 := by norm_num
  omega

theorem getKey_mod_256 (dst : Nat) (id : List Nat) (h : id.length ≤ 6) :
    getKey dst id % 256 = id.length := by
  rw [getKey_eq_of_le dst id h]
  have he : 8 * (7 - id.length) = 8 * (6 - id.length) + 8 := by omega
  rw [he, pow_add]
  have e8 : (2 : Nat) ^ 8 = 256 := by norm_num
  rw [e8]
  have e56 : (2 : Nat) ^ 56 = 256 * 2 ^ 48 := by norm_num
  rw [e56]
  have hsplit : dst % 256 * (256 * 2 ^ 48)
        + packId id * (2 ^ (8 * (6 - id.length)) * 256) + id.length
      = 256 * (dst % 256 * 2 ^ 48 + packId id * 2 ^ (8 * (6 - id.length)))
        + id.length := by ring
  rw [hsplit, Nat.mul_add_mod]
  exact Nat.mod_eq_of_lt (by omega)

/-! Helper lemmas about the first-match search over candidate id lengths. -/

theorem findSome?_range'_of_first {α : Type} (f : Nat → Option α) :
    ∀ (n a L : Nat) (v : α), a ≤ L → L < a + n → f L = some v →
    (∀ l, a ≤ l → l < L → f l = none) →
    (List.range' a n).findSome? f = some v := by
  intro n
  induction n with
  | zero => intro a L v h1 h2 _ _; omega
  | succ n ih =>
    intro a L v h1 h2 h3 h4
    rw [List.range'_succ]
    by_cases haL : a = L
    · subst haL
      simp [List.findSome?_cons, h3]
    · have hfa : f a = none := h4 a le_rfl (by omega)
      have hrec : (List.range' (a + 1) n).findSome? f = some v :=
        ih (a + 1) L v (by omega) (by omega) h3 (fun l h5 h6 => h4 l (by omega) h6)
      simpa [List.findSome?_cons, hfa] using hrec

theorem findSome?_range'_imp {α : Type} (f : Nat → Option α) :
    ∀ (n a : Nat) (v : α), (List.range' a n).findSome? f = some v →
    ∃ L, a ≤ L ∧ L < a + n ∧ f L = some v ∧ ∀ l, a ≤ l → l < L → f l = none := by
  intro n
  induction n with
  | zero => intro a v h; simp [List.range'] at h
  | succ n ih =>
    intro a v h
    rw [List.range'_succ] at h
    cases hfa : f a with
    | some w =>
      have hv : w = v := by simpa [List.findSome?_cons, hfa] using h
      exact ⟨a, le_rfl, by omega, by rw [hfa, hv], fun l h5 h6 => by omega⟩
    | none =>
      have h' : (List.range' (a + 1) n).findSome? f = some v := by
        simpa [List.findSome?_cons, hfa] using h
      obtain ⟨L, h1, h2, h3, h4⟩ := ih (a + 1) v h'
      refine ⟨L, by omega, by omega, h3, ?_⟩
      intro l h5 h6
      rcases Nat.lt_or_ge l (a + 1) with h7 | h7
      · have hl : l = a := by omega
        subst hl; exact hfa
      · exact h4 l h7 h6

theorem tryLength_eq_some_iff (mp : MessageMap) (src dst : Nat) (idBytes : List Nat)
    (len : Nat) (msg : Message) :
    mp.tryLength src dst idBytes len = some msg ↔
    (len ≤ idBytes.length ∧
      alookup (getKey dst (idBytes.take len)) mp.passiveMessagesByKey = some msg ∧
      sourceMatches src msg = true) := by
  unfold MessageMap.tryLength
  by_cases h : len ≤ idBytes.length
  · rw [if_pos h]
    cases hl : alookup (getKey dst (idBytes.take len)) mp.passiveMessagesByKey with
    | none => simp [h]
    | some m =>
      dsimp only
      by_cases hs : sourceMatches src m = true
      · rw [if_pos hs]
        constructor
        · intro he
          injection he with he
          subst he
          exact ⟨h, rfl, hs⟩
        · rintro ⟨-, he, -⟩
          injection he with he
          subst he
          rfl
      · rw [if_neg hs]
        constructor
        · intro he; cases he
        · rintro ⟨-, he, hg⟩
          injection he with he
          subst he
          exact absurd hg hs
  · rw [if_neg h]
    constructor
    · intro he; cases he
    · rintro ⟨hle, -, -⟩
      exact absurd hle h

theorem tryLength_eq_none_iff (mp : MessageMap) (src dst : Nat) (idBytes : List Nat)
    (len : Nat) :
    mp.tryLength src dst idBytes len = none ↔
    (len ≤ idBytes.length →
      ∀ msg', alookup (getKey dst (idBytes.take len)) mp.passiveMessagesByKey = some msg' →
        sourceMatches src msg' = false) := by
  unfold MessageMap.tryLength
  by_cases h : len ≤ idBytes.length
  · rw [if_pos h]
    cases hl : alookup (getKey dst (idBytes.take len)) mp.passiveMessagesByKey with
    | none =>
      constructor
      · intro _ _ msg' he; cases he
      · intro _; rfl
    | some m =>
      dsimp only
      by_cases hs : sourceMatches src m = true
      · rw [if_pos hs]
        constructor
        · intro he; cases he
        · intro hc
          have := hc h m rfl
          rw [hs] at this
          cases this
      · rw [if_neg hs]
        constructor
        · intro _ _ msg' he
          injection he with he
          subst he
          simpa using hs
        · intro _; rfl
  · rw [if_neg h]
    constructor
    · intro _ hle
      exact absurd hle h
    · intro _; rfl

/-! Concrete registries used by the witnesses. -/

/-- Registry holding exMsgC (2-byte id) and exMsgB (4-byte id). -/
def mpC1 : MessageMap := ((MessageMap.empty.add exMsgC).2.add exMsgB).2

/-- Registry holding the sender-bound passive exMsgPassive (2-byte id) and
the active exMsgB (4-byte id sharing its prefix). -/
def mpC3 : MessageMap := ((MessageMap.empty.add exMsgPassive).2.add exMsgB).2

/-- Registry holding just exMsgA. -/
def mpC5 : MessageMap := (MessageMap.empty.add exMsgA).2

/-- C1: the 64-bit key derivation is injective over (dstAddress, id) across
different id lengths: two ids sharing a common prefix but of different
lengths (both at most 6 bytes) derive different keys, and resolving an
observed frame whose true id length is L returns the length-L Message
whenever no shorter probe length has a registered key, rather than a
shorter-prefix false positive. -/
theorem key_disambiguates_id_lengths :
    (∀ (dst : Nat) (id1 id2 : List Nat), id1.length ≤ 6 → id2.length ≤ 6 →
      (∃ t, id1 ++ t = id2) → id1.length ≠ id2.length →
      getKey dst id1 ≠ getKey dst id2) ∧
    (∀ (mp : MessageMap) (src dst : Nat) (idBytes : List Nat) (L : Nat) (msgL : Message),
      mp.minIdLength ≤ L → L ≤ mp.maxIdLength → L ≤ idBytes.length →
      alookup (getKey dst (idBytes.take L)) mp.passiveMessagesByKey = some msgL →
      sourceMatches src msgL = true →
      (∀ l, mp.minIdLength ≤ l → l < L →
        alookup (getKey dst (idBytes.take l)) mp.passiveMessagesByKey = none) →
      mp.findByMaster (src :: dst :: idBytes) = some msgL) := by
  constructor
  · intro dst id1 id2 h1 h2 _ hne heq
    apply hne
    have k1 := getKey_mod_256 dst id1 h1
    have k2 := getKey_mod_256 dst id2 h2
    rw [heq] at k1
    omega
  · intro mp src dst idBytes L msgL h1 h2 h3 h4 h5 h6
    unfold MessageMap.findByMaster
    apply findSome?_range'_of_first _ _ _ L
    · exact h1
    · omega
    · exact (tryLength_eq_some_iff mp src dst idBytes L msgL).mpr ⟨h3, h4, h5⟩
    · intro l h7 h8
      apply (tryLength_eq_none_iff mp src dst idBytes l).mpr
      intro _ msg' h9
      rw [h6 l h7 h8] at h9
      cases h9

theorem key_disambiguates_id_lengths_witness :
    getKey 0x15 [0xB5, 0x09] ≠ getKey 0x15 [0xB5, 0x09, 0x01, 0x02] ∧
    mpC1.findByMaster [0xFF, 0x15, 0xB5, 0x09, 0x01, 0x02] = some exMsgB := by
  constructor
  · exact key_disambiguates_id_lengths.1 0x15 [0xB5, 0x09] [0xB5, 0x09, 0x01, 0x02]
      (by decide) (by decide) ⟨[0x01, 0x02], rfl⟩ (by decide)
  · apply key_disambiguates_id_lengths.2 mpC1 0xFF 0x15 [0xB5, 0x09, 0x01, 0x02] 4 exMsgB
      (by decide) (by decide) (by decide) (by decide) (by decide)
    intro l h1 h2
    have hmin : mpC1.minIdLength = 2 := by decide
    rw [hmin] at h1
    interval_cases l
    · decide
    · decide

/-- C2: the derived key is a pure function of (dstAddress, id): two Messages
with identical dstAddress and id derive equal keys whatever their class,
name, comment, srcAddress, isPassive or pollPriority. -/
theorem key_pure_function_of_dst_and_id (m1 m2 : Message)
    (hd : m1.dstAddress = m2.dstAddress) (hi : m1.id = m2.id) :
    m1.key = m2.key := by
  unfold Message.key
  rw [hd, hi]

/-- A message agreeing with exMsgA on dstAddress and id only. -/
def exMsgA2 : Message :=
  { clazz := "x", name := "temp2", isSet := true, isPassive := true,
    comment := "other", srcAddress := 0x10, dstAddress := 0x15,
    id := [0xB5, 0x09], data := [], pollPriority := 5 }

theorem key_pure_function_of_dst_and_id_witness : exMsgA.key = exMsgA2.key :=
  key_pure_function_of_dst_and_id exMsgA exMsgA2 rfl rfl

/-- C3: find by observed master frame returns some msg exactly when some
candidate id length between minIdLength and maxIdLength derives (with the
construction-time key derivation getKey) a key registered for msg, the
source-address gate accepts msg, and every shorter candidate length in range
either has no registered key for the observed bytes or only a candidate the
source-address gate rejects, in which case probing continued with the next
length. -/
theorem findByMaster_first_match (mp : MessageMap) (src dst : Nat)
    (idBytes : List Nat) (msg : Message) :
    mp.findByMaster (src :: dst :: idBytes) = some msg ↔
    ∃ l, mp.minIdLength ≤ l ∧ l ≤ mp.maxIdLength ∧ l ≤ idBytes.length ∧
      alookup (getKey dst (idBytes.take l)) mp.passiveMessagesByKey = some msg ∧
      sourceMatches src msg = true ∧
      ∀ l', mp.minIdLength ≤ l' → l' < l → l' ≤ idBytes.length →
        ∀ msg', alookup (getKey dst (idBytes.take l')) mp.passiveMessagesByKey = some msg' →
          sourceMatches src msg' = false := by
  unfold MessageMap.findByMaster
  constructor
  · intro h
    obtain ⟨L, h1, h2, h3, h4⟩ := findSome?_range'_imp _ _ _ _ h
    have hs := (tryLength_eq_some_iff mp src dst idBytes L msg).mp h3
    refine ⟨L, h1, by omega, hs.1, hs.2.1, hs.2.2, ?_⟩
    intro l' h5 h6 h7 msg' h8
    exact (tryLength_eq_none_iff mp src dst idBytes l').mp (h4 l' h5 h6) h7 msg' h8
  · rintro ⟨L, h1, h2, h3, h4, h5, h6⟩
    apply findSome?_range'_of_first _ _ _ L
    · exact h1
    · omega
    · exact (tryLength_eq_some_iff mp src dst idBytes L msg).mpr ⟨h3, h4, h5⟩
    · intro l h7 h8
      apply (tryLength_eq_none_iff mp src dst idBytes l).mpr
      intro h9 msg' h10
      exact h6 l h7 h8 h9 msg' h10

theorem findByMaster_first_match_witness :
    mpC3.findByMaster [0xFF, 0x15, 0xB5, 0x09, 0x01, 0x02] = some exMsgB := by
  apply (findByMaster_first_match mpC3 0xFF 0x15 [0xB5, 0x09, 0x01, 0x02] exMsgB).mpr
  refine ⟨4, by decide, by decide, by decide, by decide, by decide, ?_⟩
  intro l' h1 h2 h3 msg' h4
  have hmin : mpC3.minIdLength = 2 := by decide
  rw [hmin] at h1
  interval_cases l'
  · have he : alookup (getKey 0x15 ([0xB5, 0x09, 0x01, 0x02].take 2))
        mpC3.passiveMessagesByKey = some exMsgPassive := by decide
    rw [he] at h4
    injection h4 with h4
    subst h4
    decide
  · have he : alookup (getKey 0x15 ([0xB5, 0x09, 0x01, 0x02].take 3))
        mpC3.passiveMessagesByKey = none := by decide
    rw [he] at h4
    cases h4

/-- C4: a successful add places any message with a wire id (active or
passive alike) into the key-indexed map under its derived key, and indexes
every added message in the name map; a message without a meaningful id
leaves the key map untouched. -/
theorem add_indexes_messages_with_wire_id (mp : MessageMap) (msg : Message)
    (mp' : MessageMap) (h : mp.add msg = (none, mp')) :
    alookup (msg.clazz, msg.name, msg.isSet) mp'.messagesByName = some msg ∧
    (msg.hasWireId = true → alookup msg.key mp'.passiveMessagesByKey = some msg) ∧
    (msg.hasWireId = false → mp'.passiveMessagesByKey = mp.passiveMessagesByKey) := by
  unfold MessageMap.add at h
  split at h
  · exact absurd h (by simp)
  · split at h
    · exact absurd h (by simp)
    · injection h with h1 h2
      subst h2
      refine ⟨by simp [alookup], ?_, ?_⟩
      · intro hw
        simp [hw, alookup]
      · intro hw
        simp [hw]

theorem add_indexes_messages_with_wire_id_witness :
    alookup (exMsgA.clazz, exMsgA.name, exMsgA.isSet)
      (MessageMap.empty.add exMsgA).2.messagesByName = some exMsgA ∧
    alookup exMsgA.key (MessageMap.empty.add exMsgA).2.passiveMessagesByKey
      = some exMsgA := by
  have h := add_indexes_messages_with_wire_id MessageMap.empty exMsgA
    (MessageMap.empty.add exMsgA).2 (by decide)
  exact ⟨h.1, h.2.1 (by decide)⟩

/-- C5: adding a message whose (class, name, isSet) identity, or (for
messages with a wire id) whose derived key, is already registered returns
duplicateKey and returns the registry completely unchanged: both maps and
both id length bounds keep their prior values. -/
theorem add_duplicate_rejected_unchanged (mp : MessageMap) (msg m0 : Message)
    (h : alookup (msg.clazz, msg.name, msg.isSet) mp.messagesByName = some m0 ∨
      (msg.hasWireId = true ∧ alookup msg.key mp.passiveMessagesByKey = some m0)) :
    mp.add msg = (some .duplicateKey, mp) ∧
    (mp.add msg).2.messagesByName = mp.messagesByName ∧
    (mp.add msg).2.passiveMessagesByKey = mp.passiveMessagesByKey ∧
    (mp.add msg).2.minIdLength = mp.minIdLength ∧
    (mp.add msg).2.maxIdLength = mp.maxIdLength := by
  have hmain : mp.add msg = (some .duplicateKey, mp) := by
    unfold MessageMap.add
    rcases h with h | ⟨hw, hk⟩
    · rw [if_pos (by rw [h]; rfl)]
    · by_cases hn : (alookup (msg.clazz, msg.name, msg.isSet) mp.messagesByName).isSome
      · rw [if_pos hn]
      · rw [if_neg hn, if_pos (by rw [hw, hk]; rfl)]
  exact ⟨hmain, by rw [hmain], by rw [hmain], by rw [hmain], by rw [hmain]⟩

theorem add_duplicate_rejected_unchanged_witness :
    mpC5.add exMsgA = (some .duplicateKey, mpC5) :=
  (add_duplicate_rejected_unchanged mpC5 exMsgA exMsgA (Or.inl (by decide))).1

/-- C7: decoding data shorter than the minimum byte length the
value-descriptor tree requires for the requested part returns incompleteData
and never a (partially) filled output. -/
theorem decode_short_data_incomplete (m : Message) (pt : PartType) (data : List Nat)
    (h : data.length < minLength (partFields pt m.data)) :
    m.decode pt data = .error .incompleteData ∧
    ∀ output, m.decode pt data ≠ .ok output := by
  unfold Message.decode
  rw [if_pos h]
  exact ⟨rfl, fun output hc => Res.noConfusion hc⟩

theorem decode_short_data_incomplete_witness :
    exMsgRt.decode .masterData [4] = .error .incompleteData :=
  (decode_short_data_incomplete exMsgRt .masterData [4] (by decide)).1

/-- C9: after clear both maps are empty, every find returns nothing, and the
id length bounds are back at the values of a freshly constructed registry. -/
theorem clear_resets_registry (mp : MessageMap) :
    mp.clear.messagesByName = [] ∧
    mp.clear.passiveMessagesByKey = [] ∧
    (∀ clazz name isSet, mp.clear.findByName clazz name isSet = none) ∧
    (∀ master, mp.clear.findByMaster master = none) ∧
    mp.clear.minIdLength = MessageMap.empty.minIdLength ∧
    mp.clear.maxIdLength = MessageMap.empty.maxIdLength := by
  refine ⟨rfl, rfl, ?_, ?_, rfl, rfl⟩
  · intro clazz name isSet
    unfold MessageMap.clear MessageMap.findByName
    by_cases hc : clazz = "" <;> simp [MessageMap.empty, alookup, hc]
  · intro master
    unfold MessageMap.clear MessageMap.findByMaster
    cases master with
    | nil => rfl
    | cons a rest =>
      cases rest with
      | nil => rfl
      | cons b idBytes => rfl

/-- C10: a freshly constructed MessageMap has minIdLength 4 and maxIdLength
0, so the probed range of candidate id lengths is empty and find by master
data matches no observed frame at all. -/
theorem fresh_map_finds_nothing :
    MessageMap.empty.minIdLength = 4 ∧
    MessageMap.empty.maxIdLength = 0 ∧
    MessageMap.empty.maxIdLength < MessageMap.empty.minIdLength ∧
    List.range' MessageMap.empty.minIdLength
      (MessageMap.empty.maxIdLength + 1 - MessageMap.empty.minIdLength) = [] ∧
    ∀ master, MessageMap.empty.findByMaster master = none := by
  refine ⟨rfl, rfl, by decide, rfl, ?_⟩
  intro master
  unfold MessageMap.findByMaster
  cases master with
  | nil => rfl
  | cons a rest =>
    cases rest with
    | nil => rfl
    | cons b idBytes => rfl

/-! Helper lemmas about the field-level codec. -/

theorem encodeBytes_length (n v : Nat) : (encodeBytes n v).length = n := by
  induction n generalizing v with
  | zero => rfl
  | succ n ih => simp [encodeBytes, ih]

theorem decodeBytes_append (xs : List Nat) (y : Nat) :
    decodeBytes (xs ++ [y]) = decodeBytes xs * 256 + y % 256 := by
  unfold decodeBytes
  rw [List.foldl_append]
  rfl

theorem decodeBytes_encodeBytes (n v : Nat) (h : v < 2 ^ (8 * n)) :
    decodeBytes (encodeBytes n v) = v := by
  induction n generalizing v with
  | zero =>
    have e : (2 : Nat) ^ (8 * 0) = 1 := by norm_num
    rw [e] at h
    have hv : v = 0 := by omega
    subst hv
    rfl
  | succ n ih =>
    have h1 : v / 256 < 2 ^ (8 * n) := by
      have he : (2 : Nat) ^ (8 * (n + 1)) = 2 ^ (8 * n) * 256 := by
        rw [show 8 * (n + 1) = 8 * n + 8 by ring, pow_add]
        norm_num
      rw [he] at h
      omega
    show decodeBytes (encodeBytes n (v / 256) ++ [v % 256]) = v
    rw [decodeBytes_append, ih _ h1]
    omega

theorem encodeField_ok (f : FieldDef) (v : Nat) (b : List Nat)
    (h : encodeField f v = .ok b) :
    b = encodeBytes f.length v ∧ f.minValue ≤ v ∧ v ≤ f.maxValue ∧
    v < 2 ^ (8 * f.length) ∧ f.replacement ≠ some v := by
  unfold encodeField at h
  by_cases h1 : v < f.minValue ∨ f.maxValue < v ∨ 2 ^ (8 * f.length) ≤ v
  · rw [if_pos h1] at h
    exact Res.noConfusion h
  · rw [if_neg h1] at h
    by_cases h2 : f.replacement = some v
    · rw [if_pos h2] at h
      exact Res.noConfusion h
    · rw [if_neg h2] at h
      injection h with h
      push_neg at h1
      exact ⟨h.symm, h1.1, h1.2.1, h1.2.2, h2⟩

theorem decodeField_encodeField (f : FieldDef) (v : Nat) (b rest : List Nat)
    (h : encodeField f v = .ok b) :
    decodeField f (b ++ rest) = .ok (some v, rest) := by
  obtain ⟨hb, h1, h2, h3, h4⟩ := encodeField_ok f v b h
  subst hb
  have hlen : (encodeBytes f.length v).length = f.length := encodeBytes_length _ _
  unfold decodeField
  rw [if_neg (by rw [List.length_append, hlen]; omega)]
  rw [List.take_left' hlen, List.drop_left' hlen,
    decodeBytes_encodeBytes f.length v h3]
  rw [if_neg h4, if_neg (by omega)]

theorem encodeFields_ok_length :
    ∀ (fs : List FieldDef) (vs : List Nat) (p : List Nat),
    encodeFields fs vs = .ok p → p.length = minLength fs := by
  intro fs
  induction fs with
  | nil =>
    intro vs p h
    cases vs with
    | nil =>
      injection h with h
      rw [← h]
      rfl
    | cons v vs => exact Res.noConfusion h
  | cons f fs ih =>
    intro vs p h
    cases vs with
    | nil => exact Res.noConfusion h
    | cons v vs =>
      unfold encodeFields at h
      cases he : encodeField f v with
      | error e =>
        rw [he] at h
        exact Res.noConfusion h
      | ok b =>
        cases he2 : encodeFields fs vs with
        | error e =>
          rw [he, he2] at h
          exact Res.noConfusion h
        | ok bs =>
          rw [he, he2] at h
          injection h with h
          rw [← h, List.length_append, (encodeField_ok f v b he).1,
            encodeBytes_length, ih vs bs he2]
          simp [minLength]

theorem decodeFields_encodeFields :
    ∀ (fs : List FieldDef) (vs : List Nat) (p rest : List Nat),
    encodeFields fs vs = .ok p → decodeFields fs (p ++ rest) = .ok (vs.map some) := by
  intro fs
  induction fs with
  | nil =>
    intro vs p rest h
    cases vs with
    | nil =>
      injection h with h
      rw [← h]
      rfl
    | cons v vs => exact Res.noConfusion h
  | cons f fs ih =>
    intro vs p rest h
    cases vs with
    | nil => exact Res.noConfusion h
    | cons v vs =>
      unfold encodeFields at h
      cases he : encodeField f v with
      | error e =>
        rw [he] at h
        exact Res.noConfusion h
      | ok b =>
        cases he2 : encodeFields fs vs with
        | error e =>
          rw [he, he2] at h
          exact Res.noConfusion h
        | ok bs =>
          rw [he, he2] at h
          injection h with h
          rw [← h, List.append_assoc]
          unfold decodeFields
          rw [decodeField_encodeField f v b (bs ++ rest) he]
          dsimp only
          rw [ih vs bs rest he2]
          rfl

/-- C6: for any input that prepareMaster encodes without error, decoding the
encoded payload (the frame bytes after source address, destination address,
id bytes and the length byte) with decode reproduces the original input
field values, each as a present (non-empty) field. -/
theorem prepareMaster_decode_roundtrip (m : Message) (src : Nat)
    (input : List Nat) (frame : List Nat)
    (h : m.prepareMaster src input = .ok frame) :
    m.decode .masterData (frame.drop (m.id.length + 3)) = .ok (input.map some) := by
  unfold Message.prepareMaster at h
  cases he : encodeFields (partFields .masterData m.data) input with
  | error e =>
    rw [he] at h
    exact Res.noConfusion h
  | ok payload =>
    rw [he] at h
    injection h with h
    rw [← h]
    have hfr : (src % 256) :: (m.dstAddress % 256) ::
        (m.id.map (fun b => b % 256) ++ (payload.length % 256) :: payload)
        = ((src % 256) :: (m.dstAddress % 256) ::
            (m.id.map (fun b => b % 256) ++ [payload.length % 256])) ++ payload := by
      simp
    have hfrlen : ((src % 256) :: (m.dstAddress % 256) ::
        (m.id.map (fun b => b % 256) ++ [payload.length % 256])).length
        = m.id.length + 3 := by
      simp
    rw [hfr, List.drop_left' hfrlen]
    unfold Message.decode
    have hplen : payload.length = minLength (partFields .masterData m.data) :=
      encodeFields_ok_length _ _ _ he
    rw [if_neg (by omega)]
    have hd := decodeFields_encodeFields (partFields .masterData m.data)
      input payload [] he
    rw [List.append_nil] at hd
    exact hd

theorem prepareMaster_decode_roundtrip_witness :
    exMsgRt.decode .masterData
      ([0xFF, 0x15, 0xB5, 0x09, 2, 4, 210].drop (exMsgRt.id.length + 3))
      = .ok ([1234].map some) :=
  prepareMaster_decode_roundtrip exMsgRt 0xFF [1234]
    [0xFF, 0x15, 0xB5, 0x09, 2, 4, 210] (by decide)

/-- An ungrouped (empty-class) variant sharing the name of exMsgA but with
its own id. -/
def exMsgU : Message :=
  { clazz := "", name := "temp", isSet := false, isPassive := false,
    comment := "", srcAddress := SYN, dstAddress := 0x15,
    id := [0xB5, 0x0A], data := [], pollPriority := 0 }

/-- Registry holding both the class-qualified exMsgA and the unqualified
exMsgU under the same name. -/
def mpC8 : MessageMap := ((MessageMap.empty.add exMsgA).2.add exMsgU).2

/-- C8: find by (class, name, isSet) returns the exactly matching entry when
one exists; with an empty queried class and no exact entry it falls back to
an entry of any class carrying the same name and set flag; and when both a
class-qualified and an unqualified entry exist for a name, the
class-qualified query returns the class-qualified entry in preference to the
unqualified one. -/
theorem findByName_exact_and_fallback :
    (∀ (mp : MessageMap) (clazz name : String) (isSet : Bool) (msg : Message),
      alookup (clazz, name, isSet) mp.messagesByName = some msg →
      mp.findByName clazz name isSet = some msg) ∧
    (∀ (mp : MessageMap) (name : String) (isSet : Bool) (entry : NameKey × Message),
      alookup ("", name, isSet) mp.messagesByName = none →
      mp.messagesByName.find?
        (fun e => decide (e.1.2.1 = name) && decide (e.1.2.2 = isSet)) = some entry →
      mp.findByName "" name isSet = some entry.2 ∧
      entry.1.2.1 = name ∧ entry.1.2.2 = isSet) ∧
    (∀ (mp : MessageMap) (clazz name : String) (isSet : Bool) (msg msg0 : Message),
      clazz ≠ "" →
      alookup (clazz, name, isSet) mp.messagesByName = some msg →
      alookup ("", name, isSet) mp.messagesByName = some msg0 →
      mp.findByName clazz name isSet = some msg) := by
  have hexact : ∀ (mp : MessageMap) (clazz name : String) (isSet : Bool) (msg : Message),
      alookup (clazz, name, isSet) mp.messagesByName = some msg →
      mp.findByName clazz name isSet = some msg := by
    intro mp clazz name isSet msg h
    unfold MessageMap.findByName
    rw [h]
  refine ⟨hexact, ?_, ?_⟩
  · intro mp name isSet entry h1 h2
    have hp := List.find?_some h2
    simp only [Bool.and_eq_true, decide_eq_true_eq] at hp
    refine ⟨?_, hp.1, hp.2⟩
    unfold MessageMap.findByName
    rw [h1]
    dsimp only
    rw [if_pos rfl, h2]
    rfl
  · intro mp clazz name isSet msg msg0 hne h1 h2
    exact hexact mp clazz name isSet msg h1

theorem findByName_exact_and_fallback_witness :
    mpC8.findByName "hc" "temp" false = some exMsgA ∧
    mpC5.findByName "" "temp" false = some exMsgA := by
  constructor
  · exact findByName_exact_and_fallback.2.2 mpC8 "hc" "temp" false exMsgA exMsgU
      (by decide) (by decide) (by decide)
  · exact (findByName_exact_and_fallback.2.1 mpC5 "temp" false
      (("hc", "temp", false), exMsgA) (by decide) (by decide)).1

end Ebusd
